import Mathlib

/-!
Verification of the embedded-sql-tester core against its specification.

The definitions below are a shallow embedding of the Rust source:
`src/db_output.rs` (output validation and diff rendering),
`src/test_parser.rs` (test extraction from free-form text),
`src/runner.rs` (stateless/stateful scheduling and engine teardown).
Rust panics (`todo!()`, out-of-bounds indexing, underflowing `usize`
subtraction) are modelled by `Option`/`Except` failure values; text is
modelled as `List Char` (the inputs of interest are ASCII, where Rust's
byte indexing and character indexing agree).
-/

namespace SqlTester

/-- `Test` record from `src/main.rs` (struct `Test`). -/
structure Test where
  line : Nat
  header : String
  text : String
  output : List (List String)
  transactional : Bool
  ignore_output : Bool
deriving DecidableEq, Repr

/-- `TestFile` record from `src/main.rs` (struct `TestFile`). -/
structure TestFile where
  name : String
  stateless : Bool
  tests : List Test
deriving DecidableEq, Repr

/-- `tokio_postgres::SimpleQueryMessage`, as consumed by `validate_output`:
a data row whose cells may be SQL NULL (`Option.none`), or a
command-completion message. -/
inductive SimpleQueryMessage where
  | row (cells : List (Option String))
  | commandComplete (n : Nat)
deriving DecidableEq, Repr

/-- `FailureInfo` from `src/db_output.rs`; the engine error of `QueryError`
is kept as an abstract message string. -/
inductive FailureInfo where
  | queryError (e : String)
  | wrongNumberOfRows (received : List (List String)) (expected found : Nat)
  | mismatchedValues (received : List (List String))
deriving DecidableEq, Repr

/-- `TestResult` from `src/db_output.rs`. -/
inductive TestResult where
  | passed
  | failed (f : FailureInfo)
deriving DecidableEq, Repr

/-- One row of the actual result as `validate_output` renders it
(`r.get(i).unwrap_or("")`): a NULL cell becomes the empty string. -/
def renderRow (cells : List (Option String)) : List String :=
  cells.map (fun c => c.getD "")

/-- The row-collection loop of `validate_output` (src/db_output.rs:32-45):
rows are accumulated until the first `CommandComplete` message, which
stops the loop. -/
def collectReceived : List SimpleQueryMessage → List (List String)
  | [] => []
  | .row r :: rest => renderRow r :: collectReceived rest
  | .commandComplete _ :: _ => []

/-- `validate_output` from `src/db_output.rs:25-64`. -/
def validate_output (output : List SimpleQueryMessage) (test : Test) : TestResult :=
  if test.ignore_output then .passed
  else
    let received := collectReceived output
    if test.output.length ≠ received.length then
      .failed (.wrongNumberOfRows received test.output.length received.length)
    else if test.output ≠ received then
      .failed (.mismatchedValues received)
    else .passed

/-! ### Test extraction (`src/test_parser.rs`) -/

/-- Rust `str::split(sep)` on a list of characters: the list of segments
between occurrences of `sep` (an empty input yields one empty segment). -/
def splitChar (sep : Char) : List Char → List (List Char)
  | [] => [[]]
  | c :: cs =>
    match splitChar sep cs with
    | [] => [[]]
    | r :: rs => if c = sep then [] :: r :: rs else (c :: r) :: rs

/-- Strip one carriage return at the end of a line, as Rust `str::lines`
does for `\r\n` line endings. -/
def dropTrailingCr (l : List Char) : List Char :=
  if l.getLast? = some '\r' then l.dropLast else l

/-- Worker for `rustLines`; `cur` is the (reversed-free) current line. -/
def rustLinesAux (cur : List Char) : List Char → List (List Char)
  | [] => match cur with | [] => [] | _ => [cur]
  | c :: rest =>
    if c = '\n' then dropTrailingCr cur :: rustLinesAux [] rest
    else rustLinesAux (cur ++ [c]) rest

/-- Rust `str::lines`: split at `\n` (stripping a preceding `\r`), with no
trailing empty line when the input ends in a newline. -/
def rustLines (s : List Char) : List (List Char) := rustLinesAux [] s

/-- Rust `str::trim_start` (whitespace model restricted to ASCII). -/
def trimStartL (l : List Char) : List Char := l.dropWhile Char.isWhitespace

/-- Rust `str::trim` (whitespace model restricted to ASCII). -/
def trimBothL (l : List Char) : List Char :=
  ((l.dropWhile Char.isWhitespace).reverse.dropWhile Char.isWhitespace).reverse

/-- The backquote character, `U+0060`. -/
def bq : Char := Char.ofNat 96

/-- The code-fence marker checked by `BlockParser::next`. -/
def fenceMarker : List Char := [bq, bq, bq]

/-- Fuelled worker for `trimStartMatches`; each step removes one
occurrence of the (nonempty) pattern from the front. -/
def trimStartMatchesAux (pat : List Char) : Nat → List Char → List Char
  | 0, s => s
  | fuel+1, s =>
    if pat ≠ [] ∧ pat.isPrefixOf s then trimStartMatchesAux pat fuel (s.drop pat.length)
    else s

/-- Rust `str::trim_start_matches(pat)`: repeatedly remove `pat` from the
front. `s.length` steps of fuel suffice, since every step with a nonempty
pattern shortens the list. -/
def trimStartMatches (pat s : List Char) : List Char :=
  trimStartMatchesAux pat s.length s

/-- `Event` from `src/test_parser.rs:130-140` (code-block contents already
joined with newlines, as `BlockParser::next` produces them). -/
inductive Event where
  | heading (level : Nat) (text : List Char)
  | codeBlock (startLine : Nat) (attrs : List Char) (contents : List Char)
deriving DecidableEq, Repr

/-- The iteration of `BlockParser::next` (src/test_parser.rs:159-193), with
fuel bounding the number of consumed lines (each step consumes at least one
line, so `lines.length` fuel is exact). `n` is `line_num`. A heading line
yields its `#`-run length and trimmed text; a fence line collects the body
up to (and consuming) the next fence line, stripping the fence's leading
indentation from every body line. -/
def parseBlocksAux : Nat → Nat → List (List Char) → List Event
  | 0, _, _ => []
  | _, _, [] => []
  | fuel+1, n, line :: rest =>
    let trimmed := line.dropWhile Char.isWhitespace
    if trimmed.head? = some '#' then
      let level := (trimmed.takeWhile (fun c => c = '#')).length
      let text := (trimmed.drop level).dropWhile Char.isWhitespace
      .heading level text :: parseBlocksAux fuel (n+1) rest
    else if fenceMarker.isPrefixOf trimmed then
      let indent := line.takeWhile Char.isWhitespace
      let attrs := (trimmed.drop 3).dropWhile Char.isWhitespace
      let body := rest.takeWhile
        (fun l => ¬ fenceMarker.isPrefixOf (l.dropWhile Char.isWhitespace))
      .codeBlock (n+1) attrs (List.intercalate ['\n'] (body.map (trimStartMatches indent)))
        :: parseBlocksAux fuel (n + 1 + body.length + 1) (rest.drop (body.length + 1))
    else parseBlocksAux fuel (n+1) rest

/-- The full event stream of `BlockParser` over a list of lines. -/
def parseBlocks (n : Nat) (ls : List (List Char)) : List Event :=
  parseBlocksAux ls.length n ls

/-- Rust `char::to_ascii_lowercase`. -/
def asciiLower (c : Char) : Char :=
  if 'A' ≤ c ∧ c ≤ 'Z' then Char.ofNat (c.toNat + 32) else c

/-- The comma-separated, trimmed, ascii-lowercased attribute tokens of a
code block (src/test_parser.rs:82-92). -/
def attrTokens (attrs : List Char) : List (List Char) :=
  (splitChar ',' attrs).map (fun t => (trimBothL t).map asciiLower)

/-- `BlockKind` from `src/test_parser.rs:63-72`. -/
inductive BlockKind where
  | sql (ignore_output stateless : Bool)
  | output (ignore : Bool)
  | other
deriving DecidableEq, Repr

/-- `parse_code_block_attrs` from `src/test_parser.rs:74-115`. `none`
models the `todo!()` panic for an `output` block that is also marked
stateful. NOTE (faithful to the source): the variable `is_ignoring_output`
is computed by the Rust code but never used — the `sql` arm returns
`ignore_output := is_ignored`, and `is_ignored` is false on that path
because a true value returns `Other` earlier. -/
def parse_code_block_attrs (attrs : List Char) : Option BlockKind :=
  let tokens := attrTokens attrs
  let is_output := tokens.contains ("output".data)
  let is_sql := tokens.contains ("sql".data)
  let is_ignored := tokens.contains ("ignore".data)
  let is_stateful :=
    tokens.contains ("stateful".data) || tokens.contains ("non-transactional".data)
  let _is_ignoring_output := tokens.contains ("ignore-output".data)
  if is_ignored then some .other
  else if is_output then
    if is_stateful then none
    else some (.output is_ignored)
  else if is_sql then some (.sql is_ignored (!is_stateful))
  else some .other

/-- `parse_output` from `src/test_parser.rs:117-127`: drop the first two
lines (column names and separator), split each remaining line on `|`,
trim each cell. -/
def parse_output (s : List Char) : List (List String) :=
  ((splitChar '\n' s).drop 2).map
    (fun line => (splitChar '|' line).map (fun c => String.mk (trimBothL c)))

/-- The component pushed for a heading: its text wrapped in backquotes
(src/test_parser.rs:18, `format!("`{}`", text)`). -/
def quoteHeading (text : List Char) : String := "`" ++ String.mk text ++ "`"

/-- The heading-stack update of `extract_tests_from_string`
(src/test_parser.rs:16-19): `truncate(level)` then push the quoted text. -/
def headingUpdate (stack : List String) (level : Nat) (text : List Char) : List String :=
  stack.take level ++ [quoteHeading text]

/-- Finalizing a pending test that never received an output block sets its
`ignore_output` flag (src/test_parser.rs:31-34 and 56-59). -/
def finalizePending : Option Test → List Test
  | none => []
  | some t => [{ t with ignore_output := true }]

/-- The event loop of `extract_tests_from_string` (src/test_parser.rs:14-59).
`none` models the two `todo!()` panics (an `output` block with no pending
test, and a stateful `output` block). -/
def extractLoop : List Event → List String → Option Test → List Test → Option (List Test)
  | [], _, cur, acc => some (acc ++ finalizePending cur)
  | .heading level text :: rest, stack, cur, acc =>
      extractLoop rest (headingUpdate stack level text) cur acc
  | .codeBlock startLine attrs contents :: rest, stack, cur, acc =>
      let header := String.join stack
      match parse_code_block_attrs attrs with
      | none => none
      | some (.sql ignore_out stateless) =>
          extractLoop rest stack
            (some ⟨startLine, header, String.mk contents, [], stateless, ignore_out⟩)
            (acc ++ finalizePending cur)
      | some (.output ig) =>
          match cur with
          | none => none
          | some t =>
              extractLoop rest stack none
                (acc ++ [{ t with output := parse_output contents, ignore_output := ig }])
      | some .other => extractLoop rest stack cur acc

/-- `extract_tests_from_string` from `src/test_parser.rs:5-61`; `none`
models a panic. -/
def extract_tests_from_string (s : String) : Option (List Test) :=
  extractLoop (parseBlocks 0 (rustLines s.data)) [""] none []

/-- The `TEST_CONTENTS` input of the repository's own parser unit tests
(src/test_parser.rs:200-259). -/
def repoTestContents : String :=
  "\n# Test Parsing\n```SQL\nselect * from foo\n```\n```output\n```\n\n```SQL\nselect * from multiline;\nselect * from multiline;\n```\n```output\n ?column?\n----------\n    value\n```\n\n## ignored\n```SQL,ignore\nselect * from foo\n```\n\n## non-transactional\n```SQL,non-transactional\nselect * from bar\n```\n```output, precision(1: 3)\n a | b\n---+---\n 1 | 2\n```\n\n## indented\n\n    ```SQL\n    select indented;\n  select keeps_whitespace;\n    ```\n    ```output\n     ???\n    -----\n    a | b\n    ```\n\n## no output\n```SQL,ignore-output\nselect * from baz\n```\n\n## end by header\n```SQL\nselect * from quz\n```\n\n## end by file\n```SQL\nselect * from qat\n```\n"

/-! ### Engine session model and the runner (`src/runner.rs`)

The database engine is an external collaborator (spec section 6); it is
modelled as an abstract state type `σ` with a deterministic simple-query
function. A session follows the engine's transaction contract:
`BEGIN` snapshots the committed state, queries inside a transaction act on
the working copy, `ROLLBACK` discards it, `COMMIT` installs it, and a
query outside any transaction autocommits. The runner's control flow is
embedded on top of these operations. -/

/-- The engine behind one session: `query` is the simple-query protocol
(result plus state effect), `beginErr` says whether starting a transaction
fails on a given state. -/
structure Engine (σ : Type) where
  query : String → σ → (Except String (List SimpleQueryMessage)) × σ
  beginErr : σ → Option String

/-- One live connection: the committed database state and, when a
transaction is open, the transaction's working state. -/
structure Session (σ : Type) where
  base : σ
  txn : Option σ
deriving DecidableEq, Repr

/-- `BEGIN`: open a transaction whose working state starts at the
committed state. -/
def applyBegin (s : Session σ) : Session σ := { s with txn := some s.base }

/-- `ROLLBACK`: discard the working state; the committed state is
untouched. -/
def applyRollback (s : Session σ) : Session σ := { s with txn := none }

/-- `COMMIT`: install the working state as the committed state. -/
def applyCommit (s : Session σ) : Session σ :=
  match s.txn with
  | some w => ⟨w, none⟩
  | none => s

/-- Executing a query on a session: inside a transaction it reads and
writes the working state; outside one it autocommits against the
committed state. -/
def applyQuery (e : Engine σ) (q : String) (s : Session σ) :
    (Except String (List SimpleQueryMessage)) × Session σ :=
  match s.txn with
  | some w => let (r, w') := e.query q w; (r, { s with txn := some w' })
  | none => let (r, b') := e.query q s.base; (r, ⟨b', none⟩)

/-- The session operations a test execution performs, recorded as a trace. -/
inductive SessionOp where
  | beginTxn
  | runQuery (text : String)
  | rollback
  | commit
deriving DecidableEq, Repr

/-- The body of the task spawned per stateless test by `run_stateless_tests`
(src/runner.rs:274-289): `client.transaction()`; on success run the test's
query text in the transaction and roll back regardless of the query's
outcome; on failure the begin error becomes the result. Returns the query
result, the session afterwards, and the trace of session operations. -/
def run_stateless_test (e : Engine σ) (s : Session σ) (t : Test) :
    (Except String (List SimpleQueryMessage)) × Session σ × List SessionOp :=
  match e.beginErr s.base with
  | some er => (.error er, s, [.beginTxn])
  | none =>
      let s1 := applyBegin s
      let (res, s2) := applyQuery e t.text s1
      let s3 := applyRollback s2
      (res, s3, [.beginTxn, .runQuery t.text, .rollback])

/-- The per-test loop of the stateful file runner over that file's
dedicated session (src/runner.rs:341-353): a transactional test runs
`BEGIN` (whose failure propagates via `?` and aborts the file), the query,
then `ROLLBACK`; a non-transactional test runs its query directly on the
session. Per-query errors do not abort the loop; they are recorded as that
test's result. -/
def run_stateful_file (e : Engine σ) (s : Session σ) :
    List Test →
      Except String (List (Test × Except String (List SimpleQueryMessage)) × Session σ)
  | [] => .ok ([], s)
  | t :: ts =>
    if t.transactional then
      match e.beginErr s.base with
      | some er => .error er
      | none =>
        let s1 := applyBegin s
        let (res, s2) := applyQuery e t.text s1
        let s3 := applyRollback s2
        match run_stateful_file e s3 ts with
        | .error er => .error er
        | .ok (rs, s4) => .ok ((t, res) :: rs, s4)
    else
      let (res, s1) := applyQuery e t.text s
      match run_stateful_file e s1 ts with
      | .error er => .error er
      | .ok (rs, s2) => .ok ((t, res) :: rs, s2)

/-- Sequential specification of a stateful file, written from the spec's
words: tests execute strictly in source order against a directly threaded
database state; a transactional test's result is computed on the current
state, which it leaves unchanged; a non-transactional test's effect
persists and is visible to every later test. -/
def statefulFileSpec (e : Engine σ) (b : σ) :
    List Test → List (Test × Except String (List SimpleQueryMessage))
  | [] => []
  | t :: ts =>
      (t, (e.query t.text b).1) ::
        statefulFileSpec e (if t.transactional then b else (e.query t.text b).2) ts

/-- Final committed state after a stateful file per the sequential spec:
the fold of the non-transactional tests' effects. -/
def statefulFileSpecState (e : Engine σ) (b : σ) : List Test → σ
  | [] => b
  | t :: ts =>
      statefulFileSpecState e (if t.transactional then b else (e.query t.text b).2) ts

/-- The dispatch sequence of the stateless scheduler (src/runner.rs:260-264):
all stateless files' tests flattened in source order, each paired with its
file's name. -/
def flattenTests (files : List TestFile) : List (String × Test) :=
  (files.map (fun f => f.tests.map (fun t => (f.name, t)))).flatten

/-- The single-use result slots of the stateless scheduler: one cell per
dispatched test, created in dispatch order (src/runner.rs:271-272), each
written once when its test's execution completes. `exec i` is the result
the `i`-th dispatched test delivers through its slot; `order` is the order
in which the concurrent executions finish. -/
def fillSlots (exec : Nat → α) (order : List Nat) (slots : List (Option α)) :
    List (Option α) :=
  order.foldl (fun sl i => sl.set i (some (exec i))) slots

/-- A placeholder dispatch entry for out-of-range indexing. -/
def defaultDispatch : String × Test := ("", ⟨0, "", "", [], true, true⟩)

/-- A tiny concrete engine over `Nat` states, used by witnesses: every
query succeeds, reports no rows and increments the state; transactions
always begin. -/
def natEngine : Engine Nat where
  query := fun _ n => (.ok [.commandComplete 0], n + 1)
  beginErr := fun _ => none

/-- The branch conditions of `Drop for TestsEnv`: the `try_wait` check
(already exited with a status, still running, or the check itself failed)
and the result of delivering the termination signal. -/
structure TeardownEnv where
  tryWait : Except String (Option Nat)
  killResult : Except String Unit

/-- The externally visible teardown steps. -/
inductive TeardownAction where
  | renameOutLog
  | renameErrLog
  | signalTerm
  | waitChild
  | deleteDataDir
  | reportShutdownErr
  | reportKillErr
deriving DecidableEq, Repr

/-- `Drop for TestsEnv` (src/runner.rs:456-523, unix path), as the sequence
of teardown actions taken: a crashed process gets its two temp log files
renamed (`copy_output_locally`); a running process is sent the graceful
termination signal, and only when delivery succeeds is it waited on, the
logs renamed, and the ephemeral storage directory dropped
(`ManuallyDrop::drop(&mut self.temp_dir)`); a failed `try_wait` or a
failed signal delivery is only reported. -/
def tests_env_drop (env : TeardownEnv) : List TeardownAction :=
  match env.tryWait with
  | .ok (some _) => [.renameOutLog, .renameErrLog]
  | .ok none =>
      match env.killResult with
      | .error _ => [.signalTerm, .reportKillErr]
      | .ok _ => [.signalTerm, .waitChild, .renameOutLog, .renameErrLog, .deleteDataDir]
  | .error _ => [.reportShutdownErr]

/-! ### Diff rendering (`src/db_output.rs::print_diff`) -/

/-- Row `i` of a table; the static `EMPTY_ROW` when out of range
(src/db_output.rs:151-152). -/
def rowAt (t : List (List String)) (i : Nat) : List String := t.getD i []

/-- Cell `j` of a row; the static `EMPTY_VAL` (empty string) when out of
range (src/db_output.rs:155-156). -/
def cellAt (r : List String) (j : Nat) : String := r.getD j ""

/-- The width contribution of cell position `j` of one row pair: the
common length for equal cells, `left + right + 2` for differing cells
(src/db_output.rs:157-161). -/
def cellWidth (l r : List String) (j : Nat) : Nat :=
  let lv := cellAt l j
  let rv := cellAt r j
  if lv = rv then lv.length else lv.length + rv.length + 2

/-- The inner width-update loop over columns `0..max(|l|,|r|)` of one row
pair; `none` models the Rust panic on `width[j]` when `j` falls outside
the width vector (src/db_output.rs:154-162). -/
def updateWidthsRow (l r : List String) (ws : List Nat) : Option (List Nat) :=
  (List.range (max l.length r.length)).foldlM
    (fun ws j =>
      if j < ws.length then some (ws.set j (max (ws.getD j 0) (cellWidth l r j)))
      else none)
    ws

/-- The width-computation pass of `print_diff` (src/db_output.rs:142-163):
the width vector is sized from the FIRST row of each side only, then every
row pair updates it in place. -/
def computeDiffWidths (left right : List (List String)) : Option (List Nat) :=
  (List.range (max left.length right.length)).foldlM
    (fun ws i => updateWidthsRow (rowAt left i) (rowAt right i) ws)
    (List.replicate (max (rowAt left 0).length (rowAt right 0).length) 0)

/-- A run of `n` spaces, as produced by `write!("{:>padding$}", "")`. -/
def spaces (n : Nat) : String := String.mk (List.replicate n ' ')

/-- One rendered cell of the combined diff view (colour escapes omitted):
an equal cell is right-aligned plain, a differing pair is rendered
`-left+right` right-padded to the column width (src/db_output.rs:177-192).
`none` models the panics: width index out of bounds, or underflow of the
`usize` padding subtraction. -/
def renderDiffCell (ws : List Nat) (l r : List String) (j : Nat) : Option String :=
  if j < ws.length then
    if cellAt l j = cellAt r j then
      if (cellAt l j).length ≤ ws.getD j 0 then
        some (spaces (ws.getD j 0 - (cellAt l j).length) ++ cellAt l j)
      else none
    else
      if (cellAt l j).length + (cellAt r j).length + 2 ≤ ws.getD j 0 then
        some (spaces (ws.getD j 0 - ((cellAt l j).length + (cellAt r j).length + 2))
          ++ "-" ++ cellAt l j ++ "+" ++ cellAt r j)
      else none
  else none

/-- The cells of one output line, joined with `" | "` separators
(src/db_output.rs:171-193); `acc` is the buffer written so far. -/
def renderDiffRowAux (ws : List Nat) (l r : List String) :
    List Nat → String → Option String
  | [], acc => some acc
  | j :: js, acc =>
    match renderDiffCell ws l r j with
    | none => none
    | some cell =>
        renderDiffRowAux ws l r js (acc ++ (if j = 0 then "" else " | ") ++ cell)

/-- One output line of the combined diff view. -/
def renderDiffRow (ws : List Nat) (l r : List String) : Option String :=
  renderDiffRowAux ws l r (List.range (max l.length r.length)) ""

/-- The output lines for the given row indices. -/
def renderDiffLines (ws : List Nat) (left right : List (List String)) :
    List Nat → Option (List String)
  | [] => some []
  | i :: is =>
    match renderDiffRow ws (rowAt left i) (rowAt right i),
        renderDiffLines ws left right is with
    | some line, some rest => some (line :: rest)
    | _, _ => none

/-- `print_diff` from `src/db_output.rs:133-198`, as the list of rendered
diff lines (one per row position present in either table); `none` models a
panic. -/
def print_diff (left right : List (List String)) : Option (List String) :=
  match computeDiffWidths left right with
  | none => none
  | some ws => renderDiffLines ws left right (List.range (max left.length right.length))

end SqlTester

namespace SqlTester

/-! ### Theorems -/

/-- Sanity check of the embedding: on the repository's own parser unit-test
input, the embedded extractor produces exactly the test list that the
repository's `extract_tests_extracts` unit test expects. -/
theorem extract_matches_repo_unit_test :
    extract_tests_from_string repoTestContents = some
      [⟨3, "`Test Parsing`", "select * from foo", [], true, false⟩,
       ⟨9, "`Test Parsing`", "select * from multiline;\nselect * from multiline;",
         [["value"]], true, false⟩,
       ⟨25, "`Test Parsing``non-transactional`", "select * from bar",
         [["1", "2"]], false, false⟩,
       ⟨36, "`Test Parsing``indented`", "select indented;\n  select keeps_whitespace;",
         [["a", "b"]], true, false⟩,
       ⟨47, "`Test Parsing``no output`", "select * from baz", [], true, true⟩,
       ⟨52, "`Test Parsing``end by header`", "select * from quz", [], true, true⟩,
       ⟨57, "`Test Parsing``end by file`", "select * from qat", [], true, true⟩] := by
  decide

/-- C1: validation is: ignore flag short-circuits to `Passed`; then a row-count
mismatch gives `WrongNumberOfRows` with the expected and found counts; then any
difference between the two string tables gives `MismatchedValues` carrying the
received rows; otherwise `Passed`. NULL cells render as the empty string. -/
theorem validate_output_cases (msgs : List SimpleQueryMessage) (t : Test) :
    (t.ignore_output = true → validate_output msgs t = .passed)
    ∧ (t.ignore_output = false → (collectReceived msgs).length ≠ t.output.length →
        validate_output msgs t =
          .failed (.wrongNumberOfRows (collectReceived msgs) t.output.length
            (collectReceived msgs).length))
    ∧ (t.ignore_output = false → (collectReceived msgs).length = t.output.length →
        collectReceived msgs ≠ t.output →
        validate_output msgs t = .failed (.mismatchedValues (collectReceived msgs)))
    ∧ (t.ignore_output = false → collectReceived msgs = t.output →
        validate_output msgs t = .passed)
    ∧ (∀ n, renderRow (List.replicate n none) = List.replicate n "") := by
  refine ⟨?_, ?_, ?_, ?_, ?_⟩
  · intro h; simp [validate_output, h]
  · intro h hne
    simp only [validate_output, h, Bool.false_eq_true, if_false]
    rw [if_pos (by omega)]
  · intro h hlen hne
    simp only [validate_output, h, Bool.false_eq_true, if_false]
    rw [if_neg (by omega), if_pos (fun he => hne he.symm)]
  · intro h heq
    simp [validate_output, h, heq]
  · intro n
    simp [renderRow, List.map_replicate, Option.getD]

/-- Witness for `validate_output_cases` at the spec's own example:
expected `[["1"]]`, actual rows `["1"], ["2"]` gives
`WrongNumberOfRows` with expected 1, found 2. -/
theorem validate_output_cases_witness :
    (⟨0, "h", "q", [["1"]], true, false⟩ : Test).ignore_output = false
    ∧ (collectReceived [.row [some "1"], .row [some "2"], .commandComplete 0]).length ≠
        (⟨0, "h", "q", [["1"]], true, false⟩ : Test).output.length
    ∧ validate_output [.row [some "1"], .row [some "2"], .commandComplete 0]
        ⟨0, "h", "q", [["1"]], true, false⟩ =
        .failed (.wrongNumberOfRows [["1"], ["2"]] 1 2) :=
  ⟨by decide, by decide,
    (validate_output_cases [.row [some "1"], .row [some "2"], .commandComplete 0]
      ⟨0, "h", "q", [["1"]], true, false⟩).2.1 (by decide) (by decide)⟩

/-- C10: row collection stops at the first command-completion message: for a
result stream of some rows followed by a `CommandComplete` and arbitrary
further messages, only the leading rows are collected, and validation ignores
everything after the first `CommandComplete`. -/
theorem collectReceived_stops_at_first_command_complete
    (rows : List (List (Option String))) (n : Nat)
    (rest : List SimpleQueryMessage) (t : Test) :
    collectReceived (rows.map .row ++ .commandComplete n :: rest) = rows.map renderRow
    ∧ validate_output (rows.map .row ++ .commandComplete n :: rest) t =
        validate_output (rows.map .row ++ [.commandComplete n]) t := by
  have key : ∀ (rs : List (List (Option String))) (tail : List SimpleQueryMessage),
      collectReceived (rs.map .row ++ .commandComplete n :: tail) = rs.map renderRow := by
    intro rs
    induction rs with
    | nil => intro tail; rfl
    | cons r rs ih =>
        intro tail
        simp only [List.map_cons, List.cons_append, collectReceived]
        rw [show (List.map SimpleQueryMessage.row rs).append
              (SimpleQueryMessage.commandComplete n :: tail) =
            List.map SimpleQueryMessage.row rs ++
              SimpleQueryMessage.commandComplete n :: tail from rfl, ih]
  refine ⟨key rows rest, ?_⟩
  simp only [validate_output, key rows rest, key rows []]

/-- C5 (code evaluation at the failing input): an `output` block arriving
while no sql test is pending hits the `todo!()` at src/test_parser.rs:46 —
extraction panics (modelled by `none`) instead of producing a collectable,
reported extraction error. -/
theorem output_block_without_pending_test_panics :
    extract_tests_from_string "```output\nfoo\n```" = none := by decide

/-- C6 (code evaluation at the failing input): a `sql,ignore-output` block
followed by an `output` block yields a test with `ignore_output = false` —
the `ignore-output` token is parsed into `is_ignoring_output` but the `sql`
arm of `parse_code_block_attrs` returns `ignore_output := is_ignored`
(always false there), and the `output` arm then overwrites the flag. -/
theorem sql_ignore_output_attr_is_dropped :
    extract_tests_from_string
        "```sql,ignore-output\nselect 1\n```\n```output\n a\n---\n 1\n```" =
      some [⟨1, "", "select 1", [["1"]], true, false⟩]
    ∧ parse_code_block_attrs ("sql,ignore-output".data) = some (.sql false true) := by
  exact ⟨by decide, by decide⟩

/-- C7: headings `# A`, `## B`, `## C` give the test blocks under them the
composite headers `` `A` ``, `` `A``B` ``, `` `A``C` `` (components wrapped in
backquotes, concatenated root-to-leaf); and in general, a heading at level L
(not skipping past the current stack depth) keeps the components above L
unchanged and replaces everything at L and below with the single new
component. -/
theorem heading_level_replaces_tail_components :
    (extract_tests_from_string
        "# A\n```sql\nselect 1\n```\n## B\n```sql\nselect 2\n```\n## C\n```sql\nselect 3\n```").map
      (fun ts => ts.map Test.header) = some ["`A`", "`A``B`", "`A``C`"]
    ∧ ∀ (stack : List String) (level : Nat) (text : List Char),
        level ≤ stack.length →
        (headingUpdate stack level text).take level = stack.take level
        ∧ (headingUpdate stack level text).drop level = [quoteHeading text] := by
  constructor
  · decide
  · intro stack level text h
    have hl : (stack.take level).length = level := by
      simp [List.length_take]; omega
    constructor
    · rw [headingUpdate, List.take_append_of_le_length (by rw [hl])]
      simp [List.take_take]
    · rw [headingUpdate, List.drop_append_of_le_length (by rw [hl]),
        List.drop_eq_nil_of_le (by rw [hl]), List.nil_append]

/-- C2: a stateless test executes its query text inside a freshly begun
transaction, and that transaction is rolled back whether or not the query
succeeded: the trace never contains a commit, the committed database state
is unchanged, and when the begin succeeds the trace is exactly
begin-query-rollback with the query evaluated on the transaction's
snapshot of the shared state. -/
theorem stateless_test_rolls_back (e : Engine σ) (s : Session σ) (t : Test) :
    ((run_stateless_test e s t).2.1).base = s.base
    ∧ SessionOp.commit ∉ (run_stateless_test e s t).2.2
    ∧ (e.beginErr s.base = none →
        (run_stateless_test e s t).2.2 = [.beginTxn, .runQuery t.text, .rollback]
        ∧ (run_stateless_test e s t).1 = (e.query t.text s.base).1
        ∧ (run_stateless_test e s t).2.1 = ⟨s.base, none⟩) := by
  match hb : e.beginErr s.base with
  | some er =>
      refine ⟨?_, ?_, ?_⟩
      · simp [run_stateless_test, hb]
      · simp [run_stateless_test, hb]
      · intro h; exact absurd h (by simp)
  | none =>
      refine ⟨?_, ?_, ?_⟩
      · simp [run_stateless_test, hb, applyBegin, applyQuery, applyRollback]
      · simp [run_stateless_test, hb]
      · intro _
        refine ⟨by simp [run_stateless_test, hb], ?_, ?_⟩
        · simp [run_stateless_test, hb, applyBegin, applyQuery]
        · simp [run_stateless_test, hb, applyBegin, applyQuery, applyRollback]

/-- Witness for `stateless_test_rolls_back` on the concrete `natEngine`:
the begin succeeds, and the trace is begin-query-rollback. -/
theorem stateless_test_rolls_back_witness :
    natEngine.beginErr 5 = none
    ∧ (run_stateless_test natEngine ⟨5, none⟩ ⟨0, "h", "q", [], true, false⟩).2.2 =
        [.beginTxn, .runQuery "q", .rollback] :=
  ⟨rfl,
    ((stateless_test_rolls_back natEngine ⟨5, none⟩ ⟨0, "h", "q", [], true, false⟩).2.2
      rfl).1⟩

/-- C3: when begins succeed, running a stateful file on its dedicated
session equals the sequential specification: tests execute strictly in
source order, a transactional test's result is computed on the current
committed state which it leaves unchanged (its transaction is rolled
back), and a non-transactional test's query effect persists into the state
every later test of the file sees. -/
theorem stateful_file_sequential (e : Engine σ)
    (hbegin : ∀ b, e.beginErr b = none) (b : σ) (tests : List Test) :
    run_stateful_file e ⟨b, none⟩ tests =
      .ok (statefulFileSpec e b tests, ⟨statefulFileSpecState e b tests, none⟩) := by
  induction tests generalizing b with
  | nil => rfl
  | cons t ts ih =>
      by_cases ht : t.transactional
      · simp [run_stateful_file, ht, hbegin, applyBegin, applyQuery, applyRollback,
          ih, statefulFileSpec, statefulFileSpecState]
      · simp [run_stateful_file, ht, applyQuery, ih, statefulFileSpec,
          statefulFileSpecState]

/-- Witness for `stateful_file_sequential` on the concrete `natEngine`
with one transactional and one non-transactional test: the transactional
test leaves the state at 0, the non-transactional one advances it to 1,
and both results appear in source order. -/
theorem stateful_file_sequential_witness :
    run_stateful_file natEngine ⟨0, none⟩
        [⟨1, "a", "q1", [], true, false⟩, ⟨2, "b", "q2", [], false, false⟩] =
      .ok ([(⟨1, "a", "q1", [], true, false⟩, .ok [.commandComplete 0]),
            (⟨2, "b", "q2", [], false, false⟩, .ok [.commandComplete 0])],
           ⟨1, none⟩) := by
  have h := stateful_file_sequential natEngine (fun _ => rfl) 0
    [⟨1, "a", "q1", [], true, false⟩, ⟨2, "b", "q2", [], false, false⟩]
  rw [h]; rfl

/-- A slot's content after all completions: a slot is written (with its own
test's result) once any completion order reaches it, and writes to other
slots never disturb it. -/
theorem fillSlots_getElem (exec : Nat → α) (order : List Nat)
    (slots : List (Option α)) (i : Nat) :
    (fillSlots exec order slots)[i]? =
      if i ∈ order ∧ i < slots.length then some (some (exec i)) else slots[i]? := by
  induction order generalizing slots with
  | nil => simp [fillSlots]
  | cons j rest ih =>
      show (fillSlots exec rest (slots.set j (some (exec j))))[i]? = _
      rw [ih]
      by_cases hij : i = j
      · subst hij
        by_cases hlen : i < slots.length
        · by_cases hmem : i ∈ rest
          · simp [hmem, hlen, List.length_set, List.mem_cons]
          · simp [hmem, hlen, List.length_set, List.mem_cons,
              List.getElem?_set_self hlen]
        · rw [List.set_eq_of_length_le (Nat.le_of_not_lt hlen)]
          simp [hlen]
      · rw [List.getElem?_set_ne (Ne.symm hij)]
        simp only [List.length_set, List.mem_cons]
        by_cases hmem : i ∈ rest <;> simp [hmem, hij]

/-- Draining the slots after every slot index has been written (in an
arbitrary completion order) yields the results in slot-index order. -/
theorem fillSlots_complete (exec : Nat → α) (order : List Nat) (n : Nat)
    (hcov : ∀ i < n, i ∈ order) :
    fillSlots exec order (List.replicate n none) =
      (List.range n).map (fun i => some (exec i)) := by
  apply List.ext_getElem?
  intro i
  rw [fillSlots_getElem]
  by_cases h : i < n
  · simp [hcov i h, h, List.getElem?_range h]
  · rw [if_neg (by simp [h]), List.getElem?_eq_none (by simpa using Nat.le_of_not_lt h),
      List.getElem?_eq_none (by simpa using Nat.le_of_not_lt h)]

/-- C4: each dispatched stateless test has a dedicated single-use slot
created at dispatch time (one per entry of the flattened in-source dispatch
sequence), and for every completion order that eventually fills every
slot, draining the slots strictly in dispatch order reports exactly the
flattened tests' results in dispatch order — completion order is
irrelevant. -/
theorem stateless_report_in_dispatch_order (files : List TestFile)
    (execTest : String × Test → α) (order : List Nat)
    (hcov : ∀ i < (flattenTests files).length, i ∈ order) :
    fillSlots (fun i => execTest ((flattenTests files).getD i defaultDispatch)) order
        (List.replicate (flattenTests files).length none)
      = (flattenTests files).map (fun p => some (execTest p)) := by
  rw [fillSlots_complete _ _ _ hcov]
  apply List.ext_getElem?
  intro i
  rw [List.getElem?_map, List.getElem?_map]
  by_cases h : i < (flattenTests files).length
  · rw [List.getElem?_range h, List.getElem?_eq_getElem h]
    simp [List.getD_eq_getElem?_getD, List.getElem?_eq_getElem h]
  · rw [List.getElem?_eq_none (by simpa using Nat.le_of_not_lt h),
      List.getElem?_eq_none (by simpa using Nat.le_of_not_lt h)]
    rfl

/-- Witness for `stateless_report_in_dispatch_order`: two tests from one
stateless file, completing in reversed order `[1, 0]`, are still reported
in dispatch order. -/
theorem stateless_report_in_dispatch_order_witness :
    (∀ i < (flattenTests [⟨"f", true,
        [⟨1, "a", "q1", [], true, false⟩, ⟨2, "b", "q2", [], true, false⟩]⟩]).length,
      i ∈ [1, 0])
    ∧ fillSlots (fun i => ((flattenTests [⟨"f", true,
          [⟨1, "a", "q1", [], true, false⟩,
           ⟨2, "b", "q2", [], true, false⟩]⟩]).getD i defaultDispatch).2.header)
        [1, 0]
        (List.replicate (flattenTests [⟨"f", true,
          [⟨1, "a", "q1", [], true, false⟩,
           ⟨2, "b", "q2", [], true, false⟩]⟩]).length none)
      = [some "a", some "b"] :=
  ⟨by decide,
    by rw [stateless_report_in_dispatch_order
        [⟨"f", true, [⟨1, "a", "q1", [], true, false⟩, ⟨2, "b", "q2", [], true, false⟩]⟩]
        (fun p => p.2.header) [1, 0] (by decide)]; decide⟩

/-- C8: the ephemeral storage directory is deleted exactly when `try_wait`
reported the process still running and the termination signal was
delivered successfully — and on that path only after the wait and the log
renames; a crashed process gets both temp logs renamed and the directory
kept; a failed signal delivery only reports, leaving directory and
process in place. -/
theorem teardown_deletes_storage_only_after_clean_shutdown (env : TeardownEnv) :
    (TeardownAction.deleteDataDir ∈ tests_env_drop env ↔
      env.tryWait = .ok none ∧ env.killResult = .ok ())
    ∧ (∀ st, env.tryWait = .ok (some st) →
        tests_env_drop env = [.renameOutLog, .renameErrLog])
    ∧ (∀ er, env.tryWait = .ok none → env.killResult = .error er →
        tests_env_drop env = [.signalTerm, .reportKillErr])
    ∧ (env.tryWait = .ok none → env.killResult = .ok () →
        tests_env_drop env =
          [.signalTerm, .waitChild, .renameOutLog, .renameErrLog,
            .deleteDataDir]) := by
  obtain ⟨tw, kr⟩ := env
  match tw, kr with
  | .ok (some st), .ok _ => refine ⟨by simp [tests_env_drop], ?_, ?_, ?_⟩ <;> intros <;>
      simp_all [tests_env_drop]
  | .ok (some st), .error er => refine ⟨by simp [tests_env_drop], ?_, ?_, ?_⟩ <;> intros <;>
      simp_all [tests_env_drop]
  | .ok none, .ok _ => refine ⟨by simp [tests_env_drop], ?_, ?_, ?_⟩ <;> intros <;>
      simp_all [tests_env_drop]
  | .ok none, .error er => refine ⟨by simp [tests_env_drop], ?_, ?_, ?_⟩ <;> intros <;>
      simp_all [tests_env_drop]
  | .error er, .ok _ => refine ⟨by simp [tests_env_drop], ?_, ?_, ?_⟩ <;> intros <;>
      simp_all [tests_env_drop]
  | .error er, .error er2 => refine ⟨by simp [tests_env_drop], ?_, ?_, ?_⟩ <;> intros <;>
      simp_all [tests_env_drop]

/-- Witness for `teardown_deletes_storage_only_after_clean_shutdown` at a
crashed process (exit status observed): both logs renamed, nothing
deleted. -/
theorem teardown_witness :
    (⟨.ok (some 0), .ok ()⟩ : TeardownEnv).tryWait = .ok (some 0)
    ∧ tests_env_drop ⟨.ok (some 0), .ok ()⟩ =
        [.renameOutLog, .renameErrLog] :=
  ⟨rfl,
    (teardown_deletes_storage_only_after_clean_shutdown ⟨.ok (some 0), .ok ()⟩).2.1
      0 rfl⟩

/-- C9 counterexample: on a table whose second row is wider than its first
row, the width vector (sized from the first rows only) is indexed out of
bounds and `print_diff` panics — diff rendering is not total. -/
theorem print_diff_fails_on_wide_later_row :
    print_diff [["a"], ["b", "c"]] [] = none := by decide

/-- A cell read past the end of its row is the empty-string placeholder. -/
theorem cellAt_of_le {r : List String} {j : Nat} (h : r.length ≤ j) :
    cellAt r j = "" := by
  simp [cellAt, List.getD_eq_getElem?_getD, List.getElem?_eq_none h]

/-- Past both rows' ends the width contribution is zero. -/
theorem cellWidth_of_le {l r : List String} {j : Nat}
    (h : max l.length r.length ≤ j) : cellWidth l r j = 0 := by
  have hl : cellAt l j = "" := cellAt_of_le (le_trans (le_max_left _ _) h)
  have hr : cellAt r j = "" := cellAt_of_le (le_trans (le_max_right _ _) h)
  simp [cellWidth, hl, hr]

/-- The width-update loop over the first `cols` columns succeeds when
`cols` fits in the width vector, preserves its length, and takes each
entry below `cols` to its max with the row pair's contribution. -/
theorem updateWidthsRow_fold_spec (l r : List String) :
    ∀ (cols : Nat) (ws : List Nat), cols ≤ ws.length →
      ∃ ws', (List.range cols).foldlM
          (fun ws j =>
            if j < ws.length then
              some (ws.set j (max (ws.getD j 0) (cellWidth l r j)))
            else none) ws = some ws'
        ∧ ws'.length = ws.length
        ∧ ∀ j, ws'.getD j 0 =
            if j < cols then max (ws.getD j 0) (cellWidth l r j)
            else ws.getD j 0 := by
  intro cols
  induction cols with
  | zero => intro ws _; exact ⟨ws, rfl, rfl, by simp⟩
  | succ m ih =>
      intro ws h
      obtain ⟨ws₁, h1, hlen1, hget1⟩ := ih ws (le_trans (Nat.le_succ m) h)
      have hm : m < ws₁.length := by omega
      refine ⟨ws₁.set m (max (ws₁.getD m 0) (cellWidth l r m)), ?_, by simp [hlen1], ?_⟩
      · rw [List.range_succ, List.foldlM_append, h1]
        simp [hm]
      · intro j
        by_cases hj : j = m
        · subst hj
          rw [List.getD_eq_getElem?_getD, List.getElem?_set_self hm]
          have hm0 : ws₁[j]?.getD 0 = ws[j]?.getD 0 := by
            rw [← List.getD_eq_getElem?_getD, ← List.getD_eq_getElem?_getD,
              hget1 j, if_neg (lt_irrefl j)]
          simp [hm0, Nat.lt_succ_self]
        · rw [List.getD_eq_getElem?_getD, List.getElem?_set_ne (fun he => hj he.symm),
            ← List.getD_eq_getElem?_getD, hget1 j]
          by_cases hjm : j < m
          · rw [if_pos hjm, if_pos (by omega)]
          · rw [if_neg hjm, if_neg (by omega)]

/-- `updateWidthsRow` succeeds when the row pair fits in the width vector,
and takes every entry to its max with the row pair's contribution. -/
theorem updateWidthsRow_ok (l r : List String) (ws : List Nat)
    (h : max l.length r.length ≤ ws.length) :
    ∃ ws', updateWidthsRow l r ws = some ws'
      ∧ ws'.length = ws.length
      ∧ ∀ j, ws'.getD j 0 = max (ws.getD j 0) (cellWidth l r j) := by
  obtain ⟨ws', h1, h2, h3⟩ := updateWidthsRow_fold_spec l r (max l.length r.length) ws h
  refine ⟨ws', h1, h2, fun j => ?_⟩
  rw [h3 j]
  by_cases hj : j < max l.length r.length
  · rw [if_pos hj]
  · rw [if_neg hj, cellWidth_of_le (Nat.le_of_not_lt hj)]
    omega

/-- The width pass over the first `n` row pairs succeeds when every row
fits in the width vector, and each final entry is the running max of the
row pairs' contributions. -/
theorem computeDiffWidths_fold_spec (left right : List (List String))
    (Hrow : ∀ i, max (rowAt left i).length (rowAt right i).length ≤
        max (rowAt left 0).length (rowAt right 0).length) :
    ∀ (n : Nat) (ws : List Nat),
      ws.length = max (rowAt left 0).length (rowAt right 0).length →
      ∃ ws', (List.range n).foldlM
          (fun ws i => updateWidthsRow (rowAt left i) (rowAt right i) ws) ws = some ws'
        ∧ ws'.length = ws.length
        ∧ ∀ j, ws'.getD j 0 = (List.range n).foldl
            (fun acc i => max acc (cellWidth (rowAt left i) (rowAt right i) j))
            (ws.getD j 0) := by
  intro n
  induction n with
  | zero => intro ws _; exact ⟨ws, rfl, rfl, by simp⟩
  | succ m ih =>
      intro ws h
      obtain ⟨ws₁, h1, hlen1, hget1⟩ := ih ws h
      obtain ⟨ws₂, h2, hlen2, hget2⟩ :=
        updateWidthsRow_ok (rowAt left m) (rowAt right m) ws₁
          (by rw [hlen1, h]; exact Hrow m)
      refine ⟨ws₂, ?_, by omega, fun j => ?_⟩
      · rw [List.range_succ, List.foldlM_append, h1]
        simpa using h2
      · rw [List.range_succ, List.foldl_append, List.foldl_cons, List.foldl_nil,
          hget2 j, hget1 j]

/-- The running max only grows from its start. -/
theorem foldl_max_init (g : Nat → Nat) :
    ∀ (l : List Nat) (b : Nat), b ≤ l.foldl (fun acc i => max acc (g i)) b := by
  intro l
  induction l with
  | nil => intro b; simp
  | cons x xs ih => intro b; exact le_trans (le_max_left b (g x)) (ih (max b (g x)))

/-- The running max dominates every contribution. -/
theorem le_foldl_max (g : Nat → Nat) :
    ∀ (l : List Nat) (b i : Nat), i ∈ l →
      g i ≤ l.foldl (fun acc j => max acc (g j)) b := by
  intro l
  induction l with
  | nil => intro b i h; cases h
  | cons x xs ih =>
      intro b i h
      rcases List.mem_cons.mp h with h | h
      · subst h; exact le_trans (le_max_right b (g i)) (foldl_max_init g xs _)
      · exact ih _ i h

/-- A diff cell renders when its column index is inside the width vector
and the column width dominates its contribution. -/
theorem renderDiffCell_isSome (ws : List Nat) (l r : List String) (j : Nat)
    (hj : j < ws.length) (hcell : cellWidth l r j ≤ ws.getD j 0) :
    (renderDiffCell ws l r j).isSome := by
  rw [renderDiffCell, if_pos hj]
  rw [cellWidth] at hcell
  by_cases he : cellAt l j = cellAt r j
  · rw [if_pos he] at hcell
    rw [if_pos he, if_pos hcell]
    rfl
  · rw [if_neg he] at hcell
    rw [if_neg he, if_pos hcell]
    rfl

/-- A diff row renders when all its cells do. -/
theorem renderDiffRowAux_isSome (ws : List Nat) (l r : List String) :
    ∀ (js : List Nat) (acc : String),
      (∀ j ∈ js, (renderDiffCell ws l r j).isSome) →
      (renderDiffRowAux ws l r js acc).isSome := by
  intro js
  induction js with
  | nil => intro acc _; simp [renderDiffRowAux]
  | cons j js ih =>
      intro acc hall
      have hj := hall j (List.mem_cons_self j js)
      cases hc : renderDiffCell ws l r j with
      | none => rw [hc] at hj; simp at hj
      | some cell =>
          simp only [renderDiffRowAux, hc]
          exact ih _ (fun x hx => hall x (List.mem_cons_of_mem _ hx))

/-- The diff's line list renders, one line per requested row index, when
every requested row renders. -/
theorem renderDiffLines_spec (ws : List Nat) (left right : List (List String)) :
    ∀ (is : List Nat),
      (∀ i ∈ is, (renderDiffRow ws (rowAt left i) (rowAt right i)).isSome) →
      ∃ out, renderDiffLines ws left right is = some out ∧ out.length = is.length := by
  intro is
  induction is with
  | nil => intro _; exact ⟨[], rfl, rfl⟩
  | cons i is ih =>
      intro hall
      have hi := hall i (List.mem_cons_self i is)
      obtain ⟨out, ho, hol⟩ := ih (fun x hx => hall x (List.mem_cons_of_mem _ hx))
      cases hr : renderDiffRow ws (rowAt left i) (rowAt right i) with
      | none => rw [hr] at hi; simp at hi
      | some line =>
          refine ⟨line :: out, ?_, by simp [hol]⟩
          simp only [renderDiffLines, hr, ho]

/-- C9 amended: diff rendering is total, renders one line per row position
present in either table (missing rows and cells standing in as empty
strings), and computes each column's width as the maximum over all row
pairs of the equal-cell length or left+right+2 for differing cells —
PROVIDED no row of either table has more cells than the wider first row;
a later row wider than both first rows makes the width pass index out of
bounds and panic (see the counterexample). -/
theorem print_diff_total_unless_row_wider_than_first
    (left right : List (List String))
    (H : ∀ row ∈ left ++ right,
        row.length ≤ max (rowAt left 0).length (rowAt right 0).length) :
    ∃ ws out, computeDiffWidths left right = some ws
      ∧ ws.length = max (rowAt left 0).length (rowAt right 0).length
      ∧ (∀ j, ws.getD j 0 = (List.range (max left.length right.length)).foldl
          (fun acc i => max acc (cellWidth (rowAt left i) (rowAt right i) j)) 0)
      ∧ print_diff left right = some out
      ∧ out.length = max left.length right.length := by
  have Hrow : ∀ i, max (rowAt left i).length (rowAt right i).length ≤
      max (rowAt left 0).length (rowAt right 0).length := by
    intro i
    have hside : ∀ (t : List (List String)), (∀ row ∈ t, row.length ≤
        max (rowAt left 0).length (rowAt right 0).length) →
        (rowAt t i).length ≤ max (rowAt left 0).length (rowAt right 0).length := by
      intro t ht
      by_cases hlt : i < t.length
      · refine ht _ ?_
        rw [rowAt, List.getD_eq_getElem?_getD, List.getElem?_eq_getElem hlt]
        exact List.getElem_mem hlt
      · rw [rowAt, List.getD_eq_getElem?_getD,
          List.getElem?_eq_none (Nat.le_of_not_lt hlt)]
        simp
    exact max_le
      (hside left (fun row hr => H row (List.mem_append_left _ hr)))
      (hside right (fun row hr => H row (List.mem_append_right _ hr)))
  obtain ⟨ws, h1, h2, h3⟩ :=
    computeDiffWidths_fold_spec left right Hrow (max left.length right.length)
      (List.replicate (max (rowAt left 0).length (rowAt right 0).length) 0)
      (by simp)
  have hwsW : ws.length = max (rowAt left 0).length (rowAt right 0).length := by
    simpa using h2
  have hget : ∀ j, ws.getD j 0 = (List.range (max left.length right.length)).foldl
      (fun acc i => max acc (cellWidth (rowAt left i) (rowAt right i) j)) 0 := by
    intro j
    rw [h3 j]
    have : (List.replicate (max (rowAt left 0).length (rowAt right 0).length)
        (0 : Nat)).getD j 0 = 0 := by
      rw [List.getD_eq_getElem?_getD, List.getElem?_replicate]
      by_cases hj : j < max (rowAt left 0).length (rowAt right 0).length <;> simp [hj]
    rw [this]
  have hrows : ∀ i ∈ List.range (max left.length right.length),
      (renderDiffRow ws (rowAt left i) (rowAt right i)).isSome := by
    intro i hi
    apply renderDiffRowAux_isSome
    intro j hj
    apply renderDiffCell_isSome
    · rw [hwsW]
      exact lt_of_lt_of_le (List.mem_range.mp hj) (Hrow i)
    · rw [hget j]
      exact le_foldl_max (fun i => cellWidth (rowAt left i) (rowAt right i) j)
        (List.range (max left.length right.length)) 0 i hi
  obtain ⟨out, ho, hol⟩ := renderDiffLines_spec ws left right _ hrows
  have hcw : computeDiffWidths left right = some ws := h1
  refine ⟨ws, out, hcw, hwsW, hget, ?_, by simpa using hol⟩
  rw [print_diff, hcw]
  exact ho

/-- Witness for `print_diff_total_unless_row_wider_than_first` on a pair
of small tables of unequal shape where no row exceeds the first rows'
width: rendering succeeds. -/
theorem print_diff_total_witness :
    (∀ row ∈ ([["aa", "b"], ["c"]] : List (List String)) ++ [["dd"]],
        row.length ≤ max (rowAt [["aa", "b"], ["c"]] 0).length
          (rowAt [["dd"]] 0).length)
    ∧ ∃ ws out, computeDiffWidths [["aa", "b"], ["c"]] [["dd"]] = some ws
        ∧ ws.length = max (rowAt [["aa", "b"], ["c"]] 0).length
            (rowAt [["dd"]] 0).length
        ∧ (∀ j, ws.getD j 0 =
            (List.range (max ([["aa", "b"], ["c"]] : List (List String)).length
                ([["dd"]] : List (List String)).length)).foldl
              (fun acc i => max acc
                (cellWidth (rowAt [["aa", "b"], ["c"]] i) (rowAt [["dd"]] i) j)) 0)
        ∧ print_diff [["aa", "b"], ["c"]] [["dd"]] = some out
        ∧ out.length = max ([["aa", "b"], ["c"]] : List (List String)).length
            ([["dd"]] : List (List String)).length :=
  ⟨by decide,
    print_diff_total_unless_row_wider_than_first [["aa", "b"], ["c"]] [["dd"]]
      (by decide)⟩

/-- Witness for `heading_level_replaces_tail_components`: a level-2 heading
over the stack `["", "`A`", "`B`"]` keeps the two components above level 2. -/
theorem heading_level_replaces_tail_components_witness :
    2 ≤ (["", "`A`", "`B`"] : List String).length
    ∧ (headingUpdate ["", "`A`", "`B`"] 2 ['C']).take 2 = ["", "`A`"] :=
  ⟨by decide,
    (heading_level_replaces_tail_components.2 ["", "`A`", "`B`"] 2 ['C'] (by decide)).1⟩

end SqlTester
